import Mathlib

/-!
Verification of the osquery RocksDB database plugin
(`osquery/database/plugins/rocksdb.cpp`) against its natural-language
specification.  The C++ source is shallowly embedded below: partitions
(column families) are association lists of key/value strings, the open
engine is a list of partitions addressed by handle index, statuses carry a
numeric code and a message, and undefined behaviour (out-of-bounds vector
indexing, null-pointer dereference) is modelled by `Option`, with `none`
standing for the undefined outcome.
-/

namespace OsqueryRocksDB

/-! ## Byte-lexicographic string comparison

C++ `std::string` comparison and RocksDB's default bytewise comparator
order keys byte-lexicographically.  We model keys as Lean strings and
compare their character lists lexicographically. -/

/-- Strict byte-lexicographic order on character lists. -/
def charListLt : List Char → List Char → Bool
  | _, [] => false
  | [], _ :: _ => true
  | a :: as, b :: bs => a < b || (a == b && charListLt as bs)

/-- Reflexive byte-lexicographic order, `x ≤ y ↔ ¬ y < x` (total order). -/
def charListLe (x y : List Char) : Bool := !(charListLt y x)

/-- Strict order on strings, as `std::string::operator<` compares bytes. -/
def strLt (x y : String) : Bool := charListLt x.toList y.toList

/-- Reflexive order on strings, as `std::string::operator<=` compares bytes. -/
def strLe (x y : String) : Bool := charListLe x.toList y.toList

/-- Does `l` start with `pre`?  Used to model `std::string::find(pre) == 0`
and substring search. -/
def listStartsWith : List Char → List Char → Bool
  | _, [] => true
  | [], _ :: _ => false
  | a :: as, b :: bs => a == b && listStartsWith as bs

/-- Does `hay` contain `needle` as a contiguous substring?  Models
`std::string::find(needle) != std::string::npos`. -/
def listContainsSub (hay needle : List Char) : Bool :=
  listStartsWith hay needle ||
    (match hay with
     | [] => false
     | _ :: t => listContainsSub t needle)

/-- First occurrence index of `needle` in `hay`; models
`std::string::find` returning a position or `npos` (`none`). -/
def firstOccurIdx (hay needle : List Char) : Option Nat :=
  if listStartsWith hay needle then some 0
  else
    match hay with
    | [] => none
    | _ :: t => (firstOccurIdx t needle).map (· + 1)

/-- Index of the last occurrence of character `c` in `l`; models
`std::string::find_last_of` returning a position or `npos` (`none`). -/
def lastIdxOf (c : Char) : List Char → Option Nat
  | [] => none
  | a :: as =>
    match lastIdxOf c as with
    | some j => some (j + 1)
    | none => if a == c then some 0 else none

/-! ## Domains and column families -/

/-- Modelled from the spec: the fixed, ordered domain-name list `kDomains`
is declared in a header that is not part of the source tree; the spec
fixes it as a constant ordered list of domain names containing one
reserved high-volume event-data domain.  The concrete names mirror
osquery's published domain constants. -/
def kDomains : List String := ["configurations", "queries", "events", "carves", "logs"]

/-- Modelled from the spec: the reserved high-volume event-data domain
name (`kEvents`, declared outside the source tree). -/
def kEvents : String := "events"

/-- Name of RocksDB's implicit default column family
(`rocksdb::kDefaultColumnFamilyName`). -/
def kDefaultColumnFamilyName : String := "default"

/-- Column-family descriptors built by `setUp` (rocksdb.cpp:116-122): the
default column family is pushed first, then one descriptor per domain
name, in domain-list order. -/
def columnFamilyNames : List String := kDefaultColumnFamilyName :: kDomains

/-- Handles produced by `rocksdb::DB::Open` (rocksdb.cpp:141-142): one
handle per descriptor, in descriptor order.  We identify the handle for
descriptor `j` with the index `j`, so `handles_` on a fresh open is
`[0, 1, ..., n]` where handle `j` owns the partition named
`columnFamilyNames[j]`. -/
def openedHandles : List Nat := List.range columnFamilyNames.length

/-- Result of `getHandleForColumnFamily`: a handle, the `nullptr`
sentinel for an unknown name, or undefined behaviour from indexing
`handles_` out of bounds. -/
inductive HandleResult where
  | found (h : Nat)
  | notFound
  | outOfBounds
deriving DecidableEq, Repr

/-- `RocksDBDatabasePlugin::getHandleForColumnFamily` (rocksdb.cpp:230-238):
linear search of `cf` in `kDomains`; if found at index `i`, return
`handles_[i]` (undefined when `i` is out of range of `handles_`),
otherwise return the null sentinel. -/
def getHandleForColumnFamily (handles : List Nat) (cf : String) : HandleResult :=
  let i := kDomains.findIdx (· == cf)
  if i ≠ kDomains.length then
    match handles[i]? with
    | some h => .found h
    | none => .outOfBounds
  else .notFound

/-- Handle of the partition that carries domain `cf`'s own name: the
index of `cf` among the opened column families (descriptor order). -/
def ownPartitionHandle (cf : String) : Nat :=
  columnFamilyNames.findIdx (· == cf)

/-! ## Statuses -/

/-- The osquery `Status` value returned by the plugin operations: a
numeric code (0 = success) and a human-readable message. -/
structure Status where
  code : Nat
  message : String
deriving DecidableEq, Repr

/-- A status reported by a RocksDB engine call: its code, its I/O-error
classification (`Status::IsIOError`), and its `ToString()` text. -/
structure RocksStatus where
  code : Nat
  isIOError : Bool
  msg : String
deriving DecidableEq, Repr

/-! ## Partitions and the open engine -/

/-- One column family's contents: an association list of key/value pairs,
kept in ascending byte-lexicographic key order (RocksDB stores keys
sorted; its iterator visits them in that order). -/
abbrev Partition := List (String × String)

/-- Point lookup of a key in a partition (`rocksdb::DB::Get`). -/
def lookupKey (k : String) : Partition → Option String
  | [] => none
  | (k0, v0) :: rest => if k0 == k then some v0 else lookupKey k rest

/-- Upsert of one key/value pair into a sorted partition
(`rocksdb::WriteBatch::Put`): writing an existing key overwrites its
value, a new key is inserted at its ordered position. -/
def insertSorted (k v : String) : Partition → Partition
  | [] => [(k, v)]
  | (k0, v0) :: rest =>
    if strLt k k0 then (k, v) :: (k0, v0) :: rest
    else if k == k0 then (k, v) :: rest
    else (k0, v0) :: insertSorted k v rest

/-- Point delete of a key (`rocksdb::DB::Delete`); deleting an absent key
succeeds and changes nothing. -/
def deleteKey (k : String) (p : Partition) : Partition :=
  p.filter (fun kv => !(kv.1 == k))

/-- Range delete of the half-open interval `[low, high)`
(`rocksdb::DB::DeleteRange`); when `low > high` the interval is empty and
nothing is deleted. -/
def deleteRangeHalfOpen (low high : String) (p : Partition) : Partition :=
  p.filter (fun kv => !(strLe low kv.1 && strLt kv.1 high))

/-- The engine-facing state of the plugin: whether `db_` is non-null, the
`handles_` vector, the partition contents addressed by handle index, and
the `read_only_` degraded-mode flag. -/
structure EngineState where
  dbOpen : Bool
  handles : List Nat
  store : List Partition
  read_only : Bool
deriving DecidableEq, Repr

/-- The state of a plugin that was never successfully opened (or was
closed): null `db_`, empty `handles_`, no partitions, not read-only. -/
def closedState : EngineState :=
  { dbOpen := false, handles := [], store := [], read_only := false }

/-! ## Store operations

Each operation returns `Option (Status × ...)`; `none` models undefined
behaviour: indexing the `handles_` vector out of bounds inside
`getHandleForColumnFamily`, dereferencing a null `db_`, or addressing a
handle the engine does not know. -/

/-- `RocksDBDatabasePlugin::get` (rocksdb.cpp:240-252): fail fast on a
null `db_`, resolve the domain, then point-lookup the key.  The second
component is the value produced (`none` when the engine reported
NotFound or an error occurred before the engine call). -/
def dbGet (s : EngineState) (domain key : String) : Option (Status × Option String) :=
  if s.dbOpen = false then some (⟨1, "Database not opened"⟩, none)
  else
    match getHandleForColumnFamily s.handles domain with
    | .outOfBounds => none
    | .notFound => some (⟨1, "Could not get column family for " ++ domain⟩, none)
    | .found h =>
      match s.store[h]? with
      | none => none
      | some part =>
        match lookupKey key part with
        | some v => some (⟨0, "OK"⟩, some v)
        | none => some (⟨1, "NotFound: "⟩, none)

/-- `RocksDBDatabasePlugin::putBatch` (rocksdb.cpp:275-314): short-circuit
success in read-only mode, resolve the domain, build one upsert per pair
and commit the batch through `db_->Write` (dereferencing `db_`, which is
undefined when null).  Engine commits succeed in this model; failure
surfacing is modelled separately by `surfacePutBatchStatus`. -/
def putBatch (s : EngineState) (domain : String) (data : List (String × String)) :
    Option (Status × EngineState) :=
  if s.read_only then some (⟨0, "Database in readonly mode"⟩, s)
  else
    match getHandleForColumnFamily s.handles domain with
    | .outOfBounds => none
    | .notFound => some (⟨1, "Could not get column family for " ++ domain⟩, s)
    | .found h =>
      if s.dbOpen = false then none
      else
        match s.store[h]? with
        | none => none
        | some part =>
          let part2 := data.foldl (fun acc kv => insertSorted kv.1 kv.2 acc) part
          some (⟨0, "OK"⟩, { s with store := s.store.set h part2 })

/-- `RocksDBDatabasePlugin::put` (rocksdb.cpp:269-273): the one-element
case of `putBatch`. -/
def dbPut (s : EngineState) (domain key value : String) : Option (Status × EngineState) :=
  putBatch s domain [(key, value)]

/-- `RocksDBDatabasePlugin::remove` (rocksdb.cpp:324-343): short-circuit
success in read-only mode, resolve the domain, then point-delete the key
through `db_->Delete`. -/
def remove (s : EngineState) (domain key : String) : Option (Status × EngineState) :=
  if s.read_only then some (⟨0, "Database in readonly mode"⟩, s)
  else
    match getHandleForColumnFamily s.handles domain with
    | .outOfBounds => none
    | .notFound => some (⟨1, "Could not get column family for " ++ domain⟩, s)
    | .found h =>
      if s.dbOpen = false then none
      else
        match s.store[h]? with
        | none => none
        | some part =>
          some (⟨0, "OK"⟩, { s with store := s.store.set h (deleteKey key part) })

/-- `RocksDBDatabasePlugin::removeRange` (rocksdb.cpp:345-368):
short-circuit success in read-only mode, resolve the domain, range-delete
`[low, high)`, and additionally point-delete `high` when `low <= high`. -/
def removeRange (s : EngineState) (domain low high : String) :
    Option (Status × EngineState) :=
  if s.read_only then some (⟨0, "Database in readonly mode"⟩, s)
  else
    match getHandleForColumnFamily s.handles domain with
    | .outOfBounds => none
    | .notFound => some (⟨1, "Could not get column family for " ++ domain⟩, s)
    | .found h =>
      if s.dbOpen = false then none
      else
        match s.store[h]? with
        | none => none
        | some part =>
          let p1 := deleteRangeHalfOpen low high part
          let p2 := if strLe low high then deleteKey high p1 else p1
          some (⟨0, "OK"⟩, { s with store := s.store.set h p2 })

/-- The collection loop of `RocksDBDatabasePlugin::scan`
(rocksdb.cpp:390-399): visit the keys in iterator order, keep those whose
first occurrence of `pre` is at position 0, and break once `max > 0`
keys have been collected (the matching key is pushed before the break). -/
def scanLoop (keys : List String) (pre : String) (max : Nat) (count : Nat) : List String :=
  match keys with
  | [] => []
  | k :: ks =>
    if firstOccurIdx k.toList pre.toList == some 0 then
      if max > 0 && count + 1 ≥ max then [k]
      else k :: scanLoop ks pre max (count + 1)
    else scanLoop ks pre max count

/-- `RocksDBDatabasePlugin::scan` (rocksdb.cpp:370-402): fail fast on a
null `db_`, resolve the domain, obtain an iterator over the partition's
sorted key space and run the collection loop; an obtained iterator always
ends in the OK status, however few keys matched. -/
def scan (s : EngineState) (domain pre : String) (max : Nat) :
    Option (Status × List String) :=
  if s.dbOpen = false then some (⟨1, "Database not opened"⟩, [])
  else
    match getHandleForColumnFamily s.handles domain with
    | .outOfBounds => none
    | .notFound => some (⟨1, "Could not get column family for " ++ domain⟩, [])
    | .found h =>
      match s.store[h]? with
      | none => none
      | some part =>
        some (⟨0, "OK"⟩, scanLoop (part.map Prod.fst) pre max 0)

/-! ## Durability policy (write options per operation) -/

/-- The fields of `rocksdb::WriteOptions` this plugin sets; both default
to `false` in RocksDB. -/
structure WriteOptions where
  sync : Bool
  disableWAL : Bool
deriving DecidableEq, Repr

/-- Write options chosen by `putBatch` (rocksdb.cpp:286-292): the events
domain disables the write-ahead log, every other domain requests a sync. -/
def putBatchWriteOptions (domain : String) : WriteOptions :=
  if kEvents == domain then { sync := false, disableWAL := true }
  else { sync := true, disableWAL := false }

/-- Write options chosen by `remove` (rocksdb.cpp:334-340) and by
`removeRange` (rocksdb.cpp:356-362), which share the same lines verbatim:
non-event domains request a sync; the events domain keeps the default
options (no sync, write-ahead log still enabled). -/
def removeWriteOptions (domain : String) : WriteOptions :=
  if kEvents != domain then { sync := true, disableWAL := false }
  else { sync := false, disableWAL := false }

/-! ## Surfacing of engine commit statuses -/

/-- Drop the first `n` characters of a string (`std::string::substr(n)`,
with the out-of-range case clamped to the empty string). -/
def strDropChars (n : Nat) (s : String) : String :=
  String.mk (s.toList.drop n)

/-- How `putBatch` surfaces the engine's commit status
(rocksdb.cpp:302-313): an I/O-classified failure whose text contains a
colon keeps its code but has the text before the last colon (the
engine-internal file or log name) cut away, prefixed by a generic
`IOError: `; every other status is surfaced with its full text. -/
def surfacePutBatchStatus (s : RocksStatus) : Status :=
  if s.code ≠ 0 ∧ s.isIOError = true then
    match lastIdxOf ':' s.msg.toList with
    | some pos => ⟨s.code, "IOError: " ++ strDropChars (pos + 2) s.msg⟩
    | none => ⟨s.code, s.msg⟩
  else ⟨s.code, s.msg⟩

/-- How `remove` (rocksdb.cpp:341-342) and `removeRange`
(rocksdb.cpp:363-367) surface the engine's commit status: code and full
`ToString()` text, with no trimming of any kind. -/
def surfaceRemoveStatus (s : RocksStatus) : Status :=
  ⟨s.code, s.msg⟩

/-! ## Log interceptor (GlogRocksDBLogger::Logv) -/

/-- The spurious first-open warning discarded from forwarding
(rocksdb.cpp:63). -/
def spuriousMarker : String := "Error when reading"

/-- The corruption marker searched for in every level-ed log line
(rocksdb.cpp:72). -/
def corruptionMarker : String := "Corruption:"

/-- The level check of `GlogRocksDBLogger::Logv` (rocksdb.cpp:55): the
first character must be `[` and the second `E` or `W`; shorter lines have
NUL bytes there and fail the check. -/
def levelCheck (line : List Char) : Bool :=
  match line with
  | c0 :: c1 :: _ => c0 == '[' && (c1 == 'E' || c1 == 'W')
  | _ => false

/-- What `Logv` does with one formatted log line: the line it forwards to
the host log (if any) and whether it calls
`RocksDBDatabasePlugin::setCorrupted`. -/
structure LogvResult where
  forwarded : Option String
  setsFlag : Bool
deriving DecidableEq, Repr

/-- `GlogRocksDBLogger::Logv` (rocksdb.cpp:48-75): discard any line that
fails the level check; otherwise forward it (unless it is the spurious
first-open warning) and set the corruption indicator when it contains the
corruption marker.  The flag-setting call is modelled from the spec: the
declaration of `setCorrupted`'s default argument lives in the header, the
spec fixes the effect as `CorruptionFlag = true`. -/
def logv (line : String) : LogvResult :=
  if levelCheck line.toList = false then ⟨none, false⟩
  else
    { forwarded :=
        if listContainsSub line.toList spuriousMarker.toList then none
        else some ("RocksDB: " ++ line)
      setsFlag := listContainsSub line.toList corruptionMarker.toList }

/-- The corruption flag after `Logv` handles `line` starting from flag
value `flag`: `setCorrupted` is only ever called with `true`, so the flag
can never be cleared by the interceptor. -/
def logvFlag (line : String) (flag : Bool) : Bool :=
  flag || (logv line).setsFlag

/-! ## setUp open/repair sequence -/

/-- Outcome of one `rocksdb::DB::Open` attempt, as classified by
`setUp` (rocksdb.cpp:144, 150): success, structural corruption
(`Status::IsCorruption`), or any other failure. -/
inductive OpenResult where
  | ok
  | corruption
  | otherError
deriving DecidableEq, Repr

/-- Engine-touching events of one `setUp` call. -/
inductive SetUpEvent where
  | openCall (r : OpenResult)
  | repairCall
deriving DecidableEq, Repr

/-- The open/repair sequence of `setUp` (rocksdb.cpp:140-148), given the
outcome the engine would report on the first and on the second open
attempt: open once; if and only if that attempt reports corruption,
repair and re-open once; the result of the retry is final, whatever it
is. -/
def setUpOpenTrace (first second : OpenResult) : List SetUpEvent :=
  if first = .corruption then
    [.openCall first, .repairCall, .openCall second]
  else
    [.openCall first]

/-- Number of repair invocations in a `setUp` event trace. -/
def countRepairs (t : List SetUpEvent) : Nat :=
  (t.filter (fun e => e == .repairCall)).length

/-- Number of `rocksdb::DB::Open` attempts in a `setUp` event trace. -/
def countOpens (t : List SetUpEvent) : Nat :=
  (t.filter (fun e => match e with | .openCall _ => true | _ => false)).length

/-! ## Filesystem, repair and close -/

/-- Modelled from the spec: the filesystem collaborators `pathExists`,
`removePath` and `movePath` are black-box primitives consumed from
outside the source tree; a filesystem is the set of existing paths,
removal always succeeds, and a move succeeds exactly when its source
exists (claim-level reasoning assumes the move succeeds). -/
structure FileSys where
  existing : List String
deriving DecidableEq, Repr

/-- Does a path exist in the modelled filesystem? -/
def pathExists (fs : FileSys) (p : String) : Bool := fs.existing.contains p

/-- Remove a path (best-effort recursive removal; succeeds in this
model). -/
def removePath (fs : FileSys) (p : String) : FileSys :=
  ⟨fs.existing.filter (fun q => !(q == p))⟩

/-- Move (rename) a path; fails when the source does not exist. -/
def movePath (fs : FileSys) (src dst : String) : Option FileSys :=
  if pathExists fs src then
    some ⟨dst :: (fs.existing.filter (fun q => !(q == src)))⟩
  else none

/-- `RocksDBDatabasePlugin::repairDB` (rocksdb.cpp:203-224): compute the
sibling backup path, remove a pre-existing backup (abort on failure —
always succeeds in this model), then move the store directory to the
backup path, aborting if the move fails.  No in-place repair ever
happens. -/
def repairDB (path : String) (fs : FileSys) : FileSys :=
  let bpath := path ++ ".backup"
  let fs1 := if pathExists fs bpath then removePath fs bpath else fs
  match movePath fs1 path bpath with
  | some fs2 => fs2
  | none => fs1

/-- The plugin state acted on by `close`: the engine handles, the
process-wide corruption flag, the configured store path and the
filesystem. -/
structure PluginLifecycle where
  engine : EngineState
  corrupted : Bool
  path : String
  fs : FileSys
deriving DecidableEq, Repr

/-- `RocksDBDatabasePlugin::close` (rocksdb.cpp:177-193): release every
partition handle and clear the handle vector, release and null the store
handle, then — if the corruption flag is set — run `repairDB` and clear
the flag.  It returns nothing and never fails. -/
def close (s : PluginLifecycle) : PluginLifecycle :=
  let e := { s.engine with handles := ([] : List Nat), dbOpen := false }
  if s.corrupted then
    { s with engine := e, fs := repairDB s.path s.fs, corrupted := false }
  else
    { s with engine := e }

/-! ## Concrete fixtures used to instantiate the theorems -/

/-- A four-key partition, as in the spec's `removeRange` example. -/
def exPart : Partition := [("a", ""), ("b", ""), ("c", ""), ("d", "")]

/-- An open writable engine whose `queries` partition (addressed by the
router through handle 1) holds `exPart`. -/
def exState : EngineState :=
  { dbOpen := true, handles := openedHandles,
    store := [[], exPart, [], [], [], []], read_only := false }

/-- A partition with keys `a1 a2 a3 b1`, as in the spec's `scan`
example. -/
def exScanPart : Partition := [("a1", ""), ("a2", ""), ("a3", ""), ("b1", "")]

/-- An open engine whose `queries` partition holds `exScanPart`. -/
def exScanState : EngineState :=
  { dbOpen := true, handles := openedHandles,
    store := [[], exScanPart, [], [], [], []], read_only := false }

/-- An open engine degraded to read-only mode, with empty partitions. -/
def exReadOnly : EngineState :=
  { dbOpen := true, handles := openedHandles,
    store := [[], [], [], [], [], []], read_only := true }

/-- A plugin about to close with the corruption flag set and its store
directory present on disk. -/
def exLifecycleCorrupt : PluginLifecycle :=
  { engine := exState, corrupted := true, path := "/var/osquery/osquery.db",
    fs := ⟨["/var/osquery/osquery.db"]⟩ }

/-- A plugin about to close with the corruption flag clear. -/
def exLifecycleClean : PluginLifecycle :=
  { engine := exState, corrupted := false, path := "/var/osquery/osquery.db",
    fs := ⟨["/var/osquery/osquery.db"]⟩ }

/-- An I/O-classified engine commit failure whose text embeds an
engine-internal log filename. -/
def exIOStatus : RocksStatus :=
  ⟨5, true, "IO error: /var/osquery/000123.log: No space left on device"⟩

/-! ## Order facts about the byte-lexicographic comparison -/

theorem charListLt_irrefl (x : List Char) : charListLt x x = false := by
  induction x with
  | nil => rfl
  | cons a as ih => simp [charListLt, ih]

theorem charListLt_trans : ∀ {x y z : List Char},
    charListLt x y = true → charListLt y z = true → charListLt x z = true
  | _ :: _, b :: bs, [], _, hyz => by simp [charListLt] at hyz
  | [], b :: bs, c :: cs, _, _ => by simp [charListLt]
  | [], [], _, hxy, _ => by simp [charListLt] at hxy
  | a :: as, [], _, hxy, _ => by simp [charListLt] at hxy
  | a :: as, b :: bs, c :: cs, hxy, hyz => by
    simp only [charListLt, Bool.or_eq_true, Bool.and_eq_true, decide_eq_true_eq,
      beq_iff_eq] at hxy hyz ⊢
    rcases hxy with hab | ⟨hab, hrec⟩
    · rcases hyz with hbc | ⟨hbc, _⟩
      · exact Or.inl (lt_trans hab hbc)
      · exact Or.inl (hbc ▸ hab)
    · rcases hyz with hbc | ⟨hbc, hrec2⟩
      · exact Or.inl (hab ▸ hbc)
      · exact Or.inr ⟨hab.trans hbc, charListLt_trans hrec hrec2⟩

theorem charListLt_asymm : ∀ {x y : List Char},
    charListLt x y = true → charListLt y x = false
  | [], [], hxy => by simp [charListLt] at hxy
  | [], _ :: _, _ => by simp [charListLt]
  | _ :: _, [], hxy => by simp [charListLt] at hxy
  | a :: as, b :: bs, hxy => by
    simp only [charListLt, Bool.or_eq_true, Bool.and_eq_true, decide_eq_true_eq,
      beq_iff_eq, Bool.or_eq_false_iff, Bool.and_eq_false_iff,
      decide_eq_false_iff_not, beq_eq_false_iff_ne] at hxy ⊢
    rcases hxy with hab | ⟨hab, hrec⟩
    · exact ⟨not_lt_of_gt hab, Or.inl (ne_of_gt hab)⟩
    · refine ⟨?_, Or.inr (charListLt_asymm hrec)⟩
      rw [hab]; exact lt_irrefl b

theorem charListLt_of_ne : ∀ {x y : List Char},
    x ≠ y → charListLt x y = false → charListLt y x = true
  | [], [], hne, _ => absurd rfl hne
  | [], _ :: _, _, hxy => by simp [charListLt] at hxy
  | _ :: _, [], _, _ => by simp [charListLt]
  | a :: as, b :: bs, hne, hxy => by
    simp only [charListLt, Bool.or_eq_true, Bool.and_eq_true, decide_eq_true_eq,
      beq_iff_eq, Bool.or_eq_false_iff, Bool.and_eq_false_iff,
      decide_eq_false_iff_not, beq_eq_false_iff_ne] at hxy ⊢
    rcases hxy with ⟨hnab, hor⟩
    rcases lt_trichotomy a b with hab | hab | hab
    · exact absurd hab hnab
    · subst hab
      rcases hor with hne2 | hrec
      · exact absurd rfl hne2
      · refine Or.inr ⟨rfl, charListLt_of_ne (fun h => hne (by rw [h])) hrec⟩
    · exact Or.inl hab

theorem charListLe_eq_lt_or_eq (x y : List Char) :
    charListLe x y = (charListLt x y || x == y) := by
  unfold charListLe
  by_cases hxy : x = y
  · subst hxy
    simp [charListLt_irrefl]
  · cases h : charListLt x y
    · have := charListLt_of_ne hxy h
      simp [this, h, hxy]
    · have := charListLt_asymm h
      simp [this, h]

/-- Equality tests on a string and on its character list agree. -/
theorem toList_beq (x y : String) : (x.toList == y.toList) = (x == y) := by
  cases h : x == y
  · have hne : x ≠ y := by
      intro he; subst he; simp at h
    have hld : x.toList ≠ y.toList := fun hl => hne (String.ext hl)
    simp only [beq_eq_false_iff_ne, ne_eq]
    exact hld
  · have he : x = y := eq_of_beq h
    subst he
    simp

/-- On strings, the Boolean mirrors of the C++ comparisons relate as on a
total order: `x <= y` is `x < y` or `x == y`. -/
theorem strLe_eq_lt_or_eq (x y : String) :
    strLe x y = (strLt x y || x == y) := by
  unfold strLe strLt
  rw [charListLe_eq_lt_or_eq, toList_beq]

/-- Failure of `low <= high` means `high < low`, byte-wise. -/
theorem strLt_of_not_le {low high : String} (h : strLe low high = false) :
    strLt high low = true := by
  unfold strLe charListLe at h
  unfold strLt
  simpa using h

/-! ## List and search helper lemmas -/

theorem set_self_of_getElem {α : Type} (l : List α) (n : Nat) (a : α)
    (h : l[n]? = some a) : l.set n a = l := by
  induction l generalizing n with
  | nil => simp at h
  | cons b bs ih =>
    cases n with
    | zero =>
      simp only [List.getElem?_cons_zero, Option.some_inj] at h
      simp [h]
    | succ m =>
      simp only [List.getElem?_cons_succ] at h
      simp [ih m h]

theorem findIdx_lt_of_mem {l : List String} {d : String} (hd : d ∈ l) :
    l.findIdx (· == d) < l.length := by
  induction l with
  | nil => cases hd
  | cons a as ih =>
    rw [List.findIdx_cons]
    by_cases h : (a == d) = true
    · simp [h]
    · rcases List.mem_cons.mp hd with he | hm
      · subst he; simp at h
      · simp only [h, cond_false, List.length_cons]
        exact Nat.succ_lt_succ (ih hm)

/-- `std::string::find(needle) == 0` is exactly the prefix test. -/
theorem firstOccur_zero (hay nd : List Char) :
    (firstOccurIdx hay nd == some 0) = listStartsWith hay nd := by
  unfold firstOccurIdx
  cases h : listStartsWith hay nd
  · simp only [h, Bool.false_eq_true, if_false]
    cases hay with
    | nil => rfl
    | cons a t =>
      cases firstOccurIdx t nd <;> simp
  · simp [h]

/-- The collection loop with `limit = 0` gathers every matching key. -/
theorem scanLoop_zero (keys : List String) (pre : String) (count : Nat) :
    scanLoop keys pre 0 count =
      keys.filter (fun k => listStartsWith k.toList pre.toList) := by
  induction keys generalizing count with
  | nil => rfl
  | cons k ks ih =>
    unfold scanLoop
    rw [firstOccur_zero]
    cases h : listStartsWith k.toList pre.toList
    · have h2 : listStartsWith k.data pre.data = false := h
      simp [h, h2, List.filter_cons, ih]
    · have h2 : listStartsWith k.data pre.data = true := h
      simp [h, h2, List.filter_cons, ih]

/-- The collection loop with a positive limit gathers the first
`max - count` matching keys. -/
theorem scanLoop_take (keys : List String) (pre : String) (max : Nat) :
    ∀ count, count < max →
      scanLoop keys pre max count =
        (keys.filter (fun k => listStartsWith k.toList pre.toList)).take (max - count) := by
  induction keys with
  | nil => intro count _; simp [scanLoop]
  | cons k ks ih =>
    intro count hcount
    unfold scanLoop
    rw [firstOccur_zero]
    cases hk : listStartsWith k.toList pre.toList
    · have h2 : listStartsWith k.data pre.data = false := hk
      simp [hk, h2, List.filter_cons, ih count hcount]
    · have h2 : listStartsWith k.data pre.data = true := hk
      simp only [hk, h2, List.filter_cons, if_true]
      have hmax : 0 < max := Nat.lt_of_le_of_lt (Nat.zero_le _) hcount
      by_cases hc : count + 1 ≥ max
      · have heq : max = count + 1 := Nat.le_antisymm hc hcount
        have : (max > 0 && count + 1 ≥ max) = true := by
          simp [hmax, hc]
        rw [if_pos this]
        rw [heq]
        simp
      · have hlt : count + 1 < max := Nat.lt_of_not_le hc
        have : (max > 0 && count + 1 ≥ max) = false := by
          simp [hc]
        rw [if_neg (by simp [this])]
        rw [ih (count + 1) hlt]
        have harith : max - count = (max - (count + 1)) + 1 := by omega
        simp [harith, List.take_succ_cons]

/-- A character list with no recorded last occurrence of `c` contains no
occurrence of `c` at all. -/
theorem lastIdxOf_none {c : Char} : ∀ {l : List Char},
    lastIdxOf c l = none → ∀ x ∈ l, (x == c) = false
  | [], _, x, hx => by cases hx
  | a :: as, h, x, hx => by
    unfold lastIdxOf at h
    cases hrec : lastIdxOf c as with
    | some j => rw [hrec] at h; cases h
    | none =>
      rw [hrec] at h
      by_cases hac : (a == c) = true
      · rw [if_pos hac] at h; cases h
      · rcases List.mem_cons.mp hx with he | hm
        · subst he; simpa using hac
        · exact lastIdxOf_none hrec x hm

/-- Beyond the last occurrence of `c` there is no further occurrence. -/
theorem lastIdxOf_drop {c : Char} : ∀ {l : List Char} {j : Nat},
    lastIdxOf c l = some j → ∀ x ∈ l.drop (j + 1), (x == c) = false
  | [], j, h, x, hx => by cases h
  | a :: as, j, h, x, hx => by
    unfold lastIdxOf at h
    cases hrec : lastIdxOf c as with
    | some i =>
      rw [hrec] at h
      have hj : j = i + 1 := by
        cases h; rfl
      subst hj
      exact lastIdxOf_drop hrec x (by simpa using hx)
    | none =>
      rw [hrec] at h
      by_cases hac : (a == c) = true
      · rw [if_pos hac] at h
        have hj : j = 0 := by cases h; rfl
        subst hj
        exact lastIdxOf_none hrec x (by simpa using hx)
      · rw [if_neg hac] at h; cases h

/-! ## Claim theorems -/

/-- C1: the claim states that `getHandleForColumnFamily` returns the
partition handle belonging to the queried domain's own partition, the
handle array having been built from one descriptor per domain plus the
implicit default partition placed first.  The code indexes `handles_`
with the domain's position in `kDomains`, which is off by one with
respect to that layout: the first domain receives the default
partition's handle (index 0), not its own partition's handle (index 1).
This theorem evaluates the code at the failing input, the first domain
name. -/
theorem C1_router_returns_default_partition_for_first_domain :
    kDomains[0]? = some "configurations" ∧
    getHandleForColumnFamily openedHandles "configurations" = HandleResult.found 0 ∧
    columnFamilyNames[0]? = some kDefaultColumnFamilyName ∧
    kDefaultColumnFamilyName ≠ "configurations" ∧
    ownPartitionHandle "configurations" = 1 ∧
    getHandleForColumnFamily openedHandles "configurations" ≠
      HandleResult.found (ownPartitionHandle "configurations") := by
  decide

/-- C4 counterexample: the claim states that every write or delete
commit on the event-data domain is issued with the write-ahead-log
bypass enabled, but the write options `remove` (and `removeRange`) build
for the events domain leave `disableWAL` at its default `false`. -/
theorem C4_counterexample_remove_events_keeps_wal :
    ¬ ((removeWriteOptions kEvents).disableWAL = true) := by
  decide

/-- C4 (amended): the durability mode is a pure function of the domain
name, but it also depends on the operation: `putBatch` commits the
events domain with the write-ahead log disabled and no sync and every
other domain with an explicit sync; `remove` and `removeRange` commit
non-event domains with an explicit sync and the events domain with
wholly default options (no sync, write-ahead log still enabled). -/
theorem C4_durability_mode_by_domain (d : String) :
    (putBatchWriteOptions d).disableWAL = (kEvents == d) ∧
    (putBatchWriteOptions d).sync = !(kEvents == d) ∧
    (removeWriteOptions d).sync = !(kEvents == d) ∧
    (removeWriteOptions d).disableWAL = false := by
  unfold putBatchWriteOptions removeWriteOptions
  cases h : (kEvents == d)
  · have hne : kEvents ≠ d := by simpa using h
    simp [h, hne]
  · have he : kEvents = d := eq_of_beq h
    simp [h, he]

/-- C6: within one `setUp` call, the repair procedure is invoked if and
only if the first open attempt reports structural corruption, in which
case the open is retried exactly once; there is never a second repair or
a third open attempt, and a non-corruption open failure triggers no
repair. -/
theorem C6_setUp_repairs_once_iff_first_open_corrupt (first second : OpenResult) :
    (countRepairs (setUpOpenTrace first second) = 1 ↔ first = OpenResult.corruption) ∧
    countRepairs (setUpOpenTrace first second) ≤ 1 ∧
    countOpens (setUpOpenTrace first second) ≤ 2 ∧
    (first = OpenResult.corruption → countOpens (setUpOpenTrace first second) = 2) ∧
    (first ≠ OpenResult.corruption →
      countRepairs (setUpOpenTrace first second) = 0 ∧
      countOpens (setUpOpenTrace first second) = 1) := by
  cases first <;> cases second <;> decide

/-- C6 witness: concrete instances of the repair-retry accounting. -/
theorem C6_setUp_witness :
    countRepairs (setUpOpenTrace OpenResult.corruption OpenResult.ok) = 1 ∧
    countOpens (setUpOpenTrace OpenResult.corruption OpenResult.ok) = 2 ∧
    countRepairs (setUpOpenTrace OpenResult.otherError OpenResult.ok) = 0 :=
  ⟨(C6_setUp_repairs_once_iff_first_open_corrupt OpenResult.corruption OpenResult.ok).1.mpr rfl,
   (C6_setUp_repairs_once_iff_first_open_corrupt OpenResult.corruption OpenResult.ok).2.2.2.1 rfl,
   ((C6_setUp_repairs_once_iff_first_open_corrupt OpenResult.otherError OpenResult.ok).2.2.2.2
     (by decide)).1⟩

/-- C9: for every log line delivered to the interceptor, the corruption
flag is set if and only if the line passes the first-two-character
error/warning level check and contains the corruption marker substring;
a line failing the level check is discarded entirely (neither forwarded
nor able to set the flag), and the interceptor never sets the flag to
false. -/
theorem C9_logv_corruption_flag (line : String) (flag : Bool) :
    ((logv line).setsFlag =
      (levelCheck line.toList && listContainsSub line.toList corruptionMarker.toList)) ∧
    (levelCheck line.toList = false →
      (logv line).forwarded = none ∧ logvFlag line flag = flag) ∧
    (flag = true → logvFlag line flag = true) ∧
    (logvFlag line flag = true ↔
      (flag = true ∨ (levelCheck line.toList = true ∧
        listContainsSub line.toList corruptionMarker.toList = true))) := by
  unfold logvFlag logv
  cases h : levelCheck line.toList <;>
    cases hc : listContainsSub line.toList corruptionMarker.toList <;>
      cases flag <;> simp [h, hc]

/-- C9 witness: a corruption-marked error line sets the flag; a line
failing the level check is not forwarded. -/
theorem C9_witness :
    logvFlag "[ERROR] table Corruption: bad block" false = true ∧
    (logv "plain informational line").forwarded = none :=
  ⟨(C9_logv_corruption_flag "[ERROR] table Corruption: bad block" false).2.2.2.mpr
     (Or.inr ⟨by decide, by decide⟩),
   ((C9_logv_corruption_flag "plain informational line" false).2.1 (by decide)).1⟩

/-- C3: when the engine is in read-only (degraded) mode, each of `put`,
`putBatch`, `remove` and `removeRange` returns a success status and
leaves the state entirely unchanged — the short-circuit fires before
domain resolution, so this holds for unknown domain names as well — and
a subsequent `get` of a key "written" in read-only mode behaves exactly
as it did before the write (in particular it still reports NotFound for
an absent key). -/
theorem C3_readonly_writes_are_silent_noops (s : EngineState)
    (d k v low high : String) (data : List (String × String))
    (hro : s.read_only = true) :
    putBatch s d data = some (⟨0, "Database in readonly mode"⟩, s) ∧
    dbPut s d k v = some (⟨0, "Database in readonly mode"⟩, s) ∧
    remove s d k = some (⟨0, "Database in readonly mode"⟩, s) ∧
    removeRange s d low high = some (⟨0, "Database in readonly mode"⟩, s) ∧
    (dbPut s d k v).map (fun r => dbGet r.2 d k) = some (dbGet s d k) := by
  unfold dbPut putBatch remove removeRange
  simp [hro]

/-- C3 witness: on a concrete read-only engine, a `put` to an absent key
silently succeeds without mutating state, and a subsequent `get` of that
key still reports NotFound. -/
theorem C3_witness :
    exReadOnly.read_only = true ∧
    dbPut exReadOnly "queries" "k" "v" = some (⟨0, "Database in readonly mode"⟩, exReadOnly) ∧
    dbGet exReadOnly "queries" "k" = some (⟨1, "NotFound: "⟩, none) :=
  ⟨rfl,
   (C3_readonly_writes_are_silent_noops exReadOnly "queries" "k" "v" "" "" [] rfl).2.1,
   by decide⟩

/-- C10: unlike `get` and `scan`, which return an immediate "Database
not opened" error on a closed engine, the write operations perform no
such check: on a closed engine (null store handle, empty handle array)
that is not read-only, their handle lookup indexes the empty handle
array out of bounds for every valid domain name (undefined behaviour,
modelled as `none`), so their safety requires the engine to be open. -/
theorem C10_write_ops_unsafe_on_closed_engine (d k v low high : String)
    (data : List (String × String)) (hd : d ∈ kDomains) :
    closedState.read_only = false ∧
    getHandleForColumnFamily closedState.handles d = HandleResult.outOfBounds ∧
    putBatch closedState d data = none ∧
    dbPut closedState d k v = none ∧
    remove closedState d k = none ∧
    removeRange closedState d low high = none ∧
    dbGet closedState d k = some (⟨1, "Database not opened"⟩, none) ∧
    scan closedState d k 0 = some (⟨1, "Database not opened"⟩, []) := by
  have hidx : kDomains.findIdx (· == d) < kDomains.length := findIdx_lt_of_mem hd
  have hne : kDomains.findIdx (· == d) ≠ kDomains.length := Nat.ne_of_lt hidx
  have hrouter : getHandleForColumnFamily ([] : List Nat) d = HandleResult.outOfBounds := by
    unfold getHandleForColumnFamily
    simp [hne]
  refine ⟨rfl, hrouter, ?_, ?_, ?_, ?_, ?_, ?_⟩ <;>
    simp [putBatch, dbPut, remove, removeRange, dbGet, scan, closedState, hrouter]

/-- C10 witness: the closed-engine behaviour at a concrete valid domain
name. -/
theorem C10_witness :
    putBatch closedState "events" [("k", "v")] = none ∧
    dbGet closedState "events" "k" = some (⟨1, "Database not opened"⟩, none) :=
  ⟨(C10_write_ops_unsafe_on_closed_engine "events" "k" "v" "a" "b" [("k", "v")]
      (by decide)).2.2.1,
   (C10_write_ops_unsafe_on_closed_engine "events" "k" "v" "a" "b" [("k", "v")]
      (by decide)).2.2.2.2.2.2.1⟩

/-- Helper for C7: when the store directory exists, `repairDB` moves it
to the `.backup` sibling — afterwards the original path is gone and the
backup path exists. -/
theorem repairDB_quarantines (path : String) (fs : FileSys)
    (h : pathExists fs path = true) :
    pathExists (repairDB path fs) path = false ∧
    pathExists (repairDB path fs) (path ++ ".backup") = true := by
  have hne : path ≠ path ++ ".backup" := by
    intro he
    have hlen := congrArg String.length he
    rw [String.length_append] at hlen
    have h7 : (".backup" : String).length = 7 := by decide
    omega
  have hmem : path ∈ fs.existing := by
    simpa [pathExists] using h
  have hfs1mem : path ∈ (if pathExists fs (path ++ ".backup") = true
      then removePath fs (path ++ ".backup") else fs).existing := by
    split
    · simp only [removePath, List.mem_filter]
      exact ⟨hmem, by simpa using hne⟩
    · exact hmem
  have hmv : movePath (if pathExists fs (path ++ ".backup") = true
        then removePath fs (path ++ ".backup") else fs) path (path ++ ".backup") =
      some ⟨(path ++ ".backup") ::
        (if pathExists fs (path ++ ".backup") = true
         then removePath fs (path ++ ".backup") else fs).existing.filter
          (fun q => !(q == path))⟩ := by
    unfold movePath
    rw [if_pos]
    simpa [pathExists] using hfs1mem
  unfold repairDB
  simp only
  rw [hmv]
  constructor
  · simp [pathExists, List.mem_filter, hne]
  · simp [pathExists]

/-- C7: `close` never fails; afterwards every partition handle has been
released (the handle array is empty) and the store handle is null; if
the corruption flag was set when close ran, the repair procedure ran
(moving an existing store directory to its `.backup` sibling) and the
flag is clear afterwards; if the flag was not set, the filesystem is
untouched. -/
theorem C7_close_releases_handles_and_repairs (s : PluginLifecycle) :
    (close s).engine.handles = [] ∧
    (close s).engine.dbOpen = false ∧
    (close s).corrupted = false ∧
    (s.corrupted = false → (close s).fs = s.fs) ∧
    (s.corrupted = true → (close s).fs = repairDB s.path s.fs) ∧
    (s.corrupted = true → pathExists s.fs s.path = true →
      pathExists (close s).fs s.path = false ∧
      pathExists (close s).fs (s.path ++ ".backup") = true) := by
  unfold close
  cases hc : s.corrupted
  · simp
  · refine ⟨by simp, by simp, by simp, by simp, by simp,
      fun _ hp => by simpa using repairDB_quarantines s.path s.fs hp⟩

/-- C7 witness: closing with the corruption flag set quarantines the
store directory; closing with it clear leaves the filesystem alone. -/
theorem C7_witness :
    (close exLifecycleCorrupt).corrupted = false ∧
    pathExists (close exLifecycleCorrupt).fs exLifecycleCorrupt.path = false ∧
    pathExists (close exLifecycleCorrupt).fs (exLifecycleCorrupt.path ++ ".backup") = true ∧
    (close exLifecycleClean).fs = exLifecycleClean.fs :=
  ⟨(C7_close_releases_handles_and_repairs exLifecycleCorrupt).2.2.1,
   ((C7_close_releases_handles_and_repairs exLifecycleCorrupt).2.2.2.2.2 rfl (by decide)).1,
   ((C7_close_releases_handles_and_repairs exLifecycleCorrupt).2.2.2.2.2 rfl (by decide)).2,
   (C7_close_releases_handles_and_repairs exLifecycleClean).2.2.2.1 rfl⟩

/-- C8 counterexample: the claim states that every write or delete
commit failing with an I/O-class error surfaces a message with
engine-internal filenames stripped, but `remove` surfaces the engine's
full status text unchanged — including the embedded log filename — while
only `putBatch` strips it. -/
theorem C8_counterexample_remove_keeps_full_text :
    surfaceRemoveStatus exIOStatus ≠ surfacePutBatchStatus exIOStatus ∧
    surfaceRemoveStatus exIOStatus =
      ⟨5, "IO error: /var/osquery/000123.log: No space left on device"⟩ ∧
    surfacePutBatchStatus exIOStatus = ⟨5, "IOError: No space left on device"⟩ := by
  decide

/-- C8 (amended): `putBatch` surfaces an I/O-class commit failure with
the engine's failure code preserved and the text before the last colon
(the engine-internal file or log name) cut away — the surfaced message
contains exactly the one colon of the generic `IOError: ` category —
while `remove` and `removeRange` surface the engine's full status text
unchanged. -/
theorem C8_putBatch_strips_io_errors (s : RocksStatus) (pos : Nat)
    (hc : s.code ≠ 0) (hio : s.isIOError = true)
    (hpos : lastIdxOf ':' s.msg.toList = some pos) :
    (surfacePutBatchStatus s).code = s.code ∧
    (surfacePutBatchStatus s).message = "IOError: " ++ strDropChars (pos + 2) s.msg ∧
    ((surfacePutBatchStatus s).message.toList.filter (fun ch => ch == ':')).length = 1 ∧
    surfaceRemoveStatus s = ⟨s.code, s.msg⟩ := by
  unfold surfacePutBatchStatus surfaceRemoveStatus
  rw [if_pos ⟨hc, hio⟩, hpos]
  refine ⟨rfl, rfl, ?_, rfl⟩
  have hdrop : ∀ x ∈ s.msg.toList.drop (pos + 2), ¬ (x == ':') = true := by
    intro x hx
    have hsplit : s.msg.toList.drop (pos + 2) = (s.msg.toList.drop (pos + 1)).drop 1 := by
      rw [List.drop_drop]
    rw [hsplit] at hx
    have hx1 : x ∈ s.msg.toList.drop (pos + 1) := List.drop_subset 1 _ hx
    simp [lastIdxOf_drop hpos x hx1]
  have htl : ("IOError: " ++ strDropChars (pos + 2) s.msg).toList =
      "IOError: ".toList ++ s.msg.toList.drop (pos + 2) := rfl
  rw [htl, List.filter_append, List.length_append,
    List.filter_eq_nil_iff.mpr hdrop]
  decide

/-- C8 witness: the amended behaviour at a concrete I/O failure whose
text embeds a log filename. -/
theorem C8_witness :
    (surfacePutBatchStatus exIOStatus).code = 5 ∧
    ((surfacePutBatchStatus exIOStatus).message.toList.filter (fun ch => ch == ':')).length = 1 ∧
    surfaceRemoveStatus exIOStatus = ⟨5, exIOStatus.msg⟩ :=
  ⟨(C8_putBatch_strips_io_errors exIOStatus 33 (by decide) rfl (by decide)).1,
   (C8_putBatch_strips_io_errors exIOStatus 33 (by decide) rfl (by decide)).2.2.1,
   (C8_putBatch_strips_io_errors exIOStatus 33 (by decide) rfl (by decide)).2.2.2⟩

/-- C2: on an open writable engine with a resolvable domain,
`removeRange(D, low, high)` deletes exactly the keys of the half-open
interval `[low, high)` plus, when `low <= high`, the key `high` itself —
the net deleted interval is the closed `[low, high]` — and when
`low > high` no key is removed at all (the state is unchanged); other
partitions are never touched. -/
theorem C2_removeRange_deletes_closed_interval (s : EngineState) (d low high : String)
    (h : Nat) (part : Partition)
    (hro : s.read_only = false) (hdb : s.dbOpen = true)
    (hh : getHandleForColumnFamily s.handles d = HandleResult.found h)
    (hpart : s.store[h]? = some part) :
    ∃ s2, removeRange s d low high = some (⟨0, "OK"⟩, s2) ∧
      (strLe low high = true →
        s2.store[h]? =
          some (part.filter (fun kv => !(strLe low kv.1 && strLe kv.1 high)))) ∧
      (strLe low high = false → s2 = s) ∧
      (∀ h2, h2 ≠ h → s2.store[h2]? = s.store[h2]?) := by
  obtain ⟨hlen, -⟩ := List.getElem?_eq_some.mp hpart
  refine ⟨{ s with
              store := s.store.set h
                         (if strLe low high = true
                          then deleteKey high (deleteRangeHalfOpen low high part)
                          else deleteRangeHalfOpen low high part) },
          ?_, ?_, ?_, ?_⟩
  · unfold removeRange
    simp [hro, hh, hdb, hpart]
  · intro hle
    rw [if_pos hle]
    have hset : (s.store.set h (deleteKey high (deleteRangeHalfOpen low high part)))[h]? =
        some (deleteKey high (deleteRangeHalfOpen low high part)) := by
      simp [List.getElem?_set_self', hlen]
    rw [hset]
    congr 1
    unfold deleteKey deleteRangeHalfOpen
    rw [List.filter_filter]
    apply List.filter_congr
    intro kv _
    rw [strLe_eq_lt_or_eq kv.1 high]
    cases hkh : (kv.1 == high)
    · simp [hkh]
    · have he : kv.1 = high := eq_of_beq hkh
      have hlow : strLe low kv.1 = true := by rw [he]; exact hle
      simp [hkh, hlow]
  · intro hle
    rw [if_neg (by simp [hle])]
    have hp1 : deleteRangeHalfOpen low high part = part := by
      apply List.filter_eq_self.mpr
      intro kv _
      suffices hs : (strLe low kv.1 && strLt kv.1 high) = false by
        rw [hs]; rfl
      cases hA : strLe low kv.1
      · rfl
      · cases hB : strLt kv.1 high
        · rfl
        · exfalso
          have hhl : strLt high low = true := strLt_of_not_le hle
          have htr : charListLt kv.1.toList low.toList = true :=
            charListLt_trans hB hhl
          have : charListLt kv.1.toList low.toList = false := by
            have := hA
            unfold strLe charListLe at this
            simpa using this
          rw [htr] at this
          cases this
    rw [hp1, set_self_of_getElem s.store h part hpart]
  · intro h2 hne2
    exact List.getElem?_set_ne (Ne.symm hne2)

/-- C2 witness: on keys `{a, b, c, d}`, `removeRange(D, "a", "c")` leaves
exactly `{d}`, and `removeRange(D, "c", "a")` (low > high) removes
nothing. -/
theorem C2_witness :
    removeRange exState "queries" "c" "a" = some (⟨0, "OK"⟩, exState) ∧
    (∃ s2, removeRange exState "queries" "a" "c" = some (⟨0, "OK"⟩, s2) ∧
      s2.store[1]? = some [("d", "")]) := by
  constructor
  · obtain ⟨s2, he, -, hback, -⟩ :=
      C2_removeRange_deletes_closed_interval exState "queries" "c" "a" 1 exPart
        rfl rfl (by decide) rfl
    rw [he, hback (by decide)]
  · obtain ⟨s2, he, hfwd, -, -⟩ :=
      C2_removeRange_deletes_closed_interval exState "queries" "a" "c" 1 exPart
        rfl rfl (by decide) rfl
    refine ⟨s2, he, ?_⟩
    rw [hfwd (by decide)]
    decide

/-- C5: on an open engine with a resolvable domain whose key space is
sorted ascending, `scan(D, P, L)` returns the OK status together with
exactly the keys starting with `P`, in ascending byte-lexicographic
order, truncated to the first `L` matches when `L > 0` and complete when
`L = 0`; exhausting the iteration with fewer than `L` matches is still
OK. -/
theorem C5_scan_returns_ordered_limited_matches (s : EngineState) (d pre : String)
    (max h : Nat) (part : Partition)
    (hdb : s.dbOpen = true)
    (hh : getHandleForColumnFamily s.handles d = HandleResult.found h)
    (hpart : s.store[h]? = some part)
    (hsorted : (part.map Prod.fst).Pairwise (fun a b => strLt a b = true)) :
    ∃ res, scan s d pre max = some (⟨0, "OK"⟩, res) ∧
      res = (if max = 0
             then (part.map Prod.fst).filter (fun k => listStartsWith k.toList pre.toList)
             else ((part.map Prod.fst).filter
                (fun k => listStartsWith k.toList pre.toList)).take max) ∧
      res.Pairwise (fun a b => strLt a b = true) ∧
      (∀ k ∈ res, listStartsWith k.toList pre.toList = true) := by
  have hOK : scan s d pre max =
      some (⟨0, "OK"⟩, scanLoop (part.map Prod.fst) pre max 0) := by
    unfold scan
    simp [hdb, hh, hpart]
  have hfiltered : ((part.map Prod.fst).filter
      (fun k => listStartsWith k.toList pre.toList)).Pairwise
        (fun a b => strLt a b = true) := hsorted.filter _
  cases max with
  | zero =>
    refine ⟨_, hOK, ?_, ?_, ?_⟩
    · rw [scanLoop_zero]
      simp
    · rw [scanLoop_zero]
      exact hfiltered
    · rw [scanLoop_zero]
      intro k hk
      exact (List.mem_filter.mp hk).2
  | succ m =>
    have ht := scanLoop_take (part.map Prod.fst) pre (m + 1) 0 (Nat.succ_pos m)
    refine ⟨_, hOK, ?_, ?_, ?_⟩
    · rw [ht]
      simp
    · rw [ht]
      exact hfiltered.sublist (List.take_sublist _ _)
    · rw [ht]
      intro k hk
      exact (List.mem_filter.mp ((List.take_sublist _ _).subset hk)).2

/-- C5 witness: with keys `a1 a2 a3 b1`, `scan(D, "a", 2)` returns exactly
`[a1, a2]`, and a limit larger than the number of matches still returns
OK with every match. -/
theorem C5_witness :
    scan exScanState "queries" "a" 2 = some (⟨0, "OK"⟩, ["a1", "a2"]) ∧
    scan exScanState "queries" "a" 10 = some (⟨0, "OK"⟩, ["a1", "a2", "a3"]) := by
  constructor
  · obtain ⟨res, he, hres, -, -⟩ :=
      C5_scan_returns_ordered_limited_matches exScanState "queries" "a" 2 1 exScanPart
        rfl (by decide) rfl (by decide)
    rw [he, hres]
    decide
  · obtain ⟨res, he, hres, -, -⟩ :=
      C5_scan_returns_ordered_limited_matches exScanState "queries" "a" 10 1 exScanPart
        rfl (by decide) rfl (by decide)
    rw [he, hres]
    decide

end OsqueryRocksDB
